import Mathlib

/-!
# libj1939: transport-protocol sender (`src/j1939_ecu.c`)

Shallow embedding of the connection-mode sender `j1939_tp` and of the five
control-message senders of `src/j1939_ecu.c`, and of the platform functions
`j1939_cansend` and `j1939_get_time` of `example/linux_socketcan.c`.

Conventions of the embedding:

* machine integers are `Nat` (unsigned) or `Int` (`int`), narrowing
  conversions are written `% 2^w` explicitly (`u8`);
* a byte buffer is a `List Nat`; a pointer into the payload is the buffer
  together with an offset (`block`);
* `j1939_send` is declared in `j1939.h` and its body is not part of the
  translated sources.  It is treated as the boundary of the model: every call
  is appended to a trace of `SendCall` records and its `int` result is read
  from an arbitrary result function `bus`, indexed by the number of calls made
  so far.  Nothing is assumed about the values `bus` yields.
-/

set_option linter.unusedVariables false

namespace J1939

/-! ## Data model -/

/-- Conversion to `uint8_t`. -/
def u8 (x : Nat) : Nat := x % 256

/-- The C type `struct j1939_pgn` (its three fields are the ones read by
`j1939_ecu.c`). -/
structure j1939_pgn where
  data_page : Nat
  pdu_format : Nat
  pdu_specific : Nat
deriving DecidableEq, Repr

/-- Modelled from the spec: the initialiser `J1939_INIT_PGN` is defined in
`j1939.h`, which is not among the sources.  The spec describes a PGN as
composed of `(data_page, pdu_format, pdu_specific)`, and names `0xEC` and
`0xEB` the PDU formats of TP.CM and TP.DT, so the three arguments are taken in
that order. -/
def J1939_INIT_PGN (dp format specific : Nat) : j1939_pgn :=
  { data_page := dp, pdu_format := format, pdu_specific := specific }

/-- Modelled from the spec: `ADDRESS_GLOBAL` is defined in `j1939.h`, which is
not among the sources.  The spec gives the global/broadcast destination address
as `0xFF`. -/
def ADDRESS_GLOBAL : Nat := 0xFF

def CONN_MODE_RTS : Nat := 0x10
def CONN_MODE_CTS : Nat := 0x11
def CONN_MODE_EOM_ACK : Nat := 0x13
def CONN_MODE_BAM : Nat := 0x20
def CONN_MODE_ABORT : Nat := 0xFF

def TP_CM : j1939_pgn := J1939_INIT_PGN 0x00 0xEC 0x00
def TP_DT : j1939_pgn := J1939_INIT_PGN 0x00 0xEB 0x00

/-- `ARRAY_SIZE(a)`: the number of elements of the array `a`. -/
def ARRAY_SIZE (a : List Nat) : Nat := a.length

/-- One call of `j1939_send(pgn, priority, src, dst, data, len)`: the frame
handed to the bus.  `data` holds the `len` bytes found at the pointer passed. -/
structure SendCall where
  pgn : j1939_pgn
  priority : Nat
  src : Nat
  dst : Nat
  data : List Nat
  len : Nat
deriving DecidableEq, Repr

/-- The frames sent so far, oldest first. -/
abbrev Trace := List SendCall

/-- The external `j1939_send`: records the call and returns the result the bus
reports for it. -/
def j1939_send (bus : Nat → Int) (tr : Trace) (pgn : j1939_pgn)
    (priority src dst : Nat) (data : List Nat) (len : Nat) : Int × Trace :=
  (bus tr.length,
   tr ++ [{ pgn := pgn, priority := priority, src := src, dst := dst,
            data := data.take len, len := len }])

/-! ## The senders of `j1939_ecu.c`

`low` stands for the constant `J1939_PRIORITY_LOW` of `j1939.h`, whose value is
not part of the sources: it is a parameter of the model. -/

def send_tp_rts (bus : Nat → Int) (tr : Trace) (priority src dst size num_packets : Nat) :
    Int × Trace :=
  let data : List Nat :=
    [ CONN_MODE_RTS,
      u8 (size &&& 0xFF),
      u8 (size >>> 8),
      u8 num_packets,
      0xFF,
      TP_CM.pdu_specific,
      TP_CM.pdu_format,
      TP_CM.data_page ]
  j1939_send bus tr TP_CM priority src dst data 8

/-- The pointer argument `data` of the C function is the pair of the buffer
`buf` and the offset `block` into it. -/
def send_tp_dt (low : Nat) (bus : Nat → Int) (tr : Trace) (src dst : Nat)
    (buf : List Nat) (block : Nat) (len : Nat) : Int × Trace :=
  j1939_send bus tr TP_DT low src dst (buf.drop block) len

def send_tp_bam (bus : Nat → Int) (tr : Trace) (priority src size num_packets : Nat) :
    Int × Trace :=
  let data : List Nat :=
    [ CONN_MODE_BAM,
      u8 (size &&& 0x00FF),
      u8 (size >>> 8),
      u8 num_packets,
      0xFF,
      TP_CM.pdu_specific,
      TP_CM.pdu_format,
      TP_CM.data_page ]
  j1939_send bus tr TP_CM priority src ADDRESS_GLOBAL data (ARRAY_SIZE data)

def send_abort (low : Nat) (bus : Nat → Int) (tr : Trace) (src dst reason : Nat) :
    Int × Trace :=
  let data : List Nat :=
    [ CONN_MODE_ABORT,
      u8 reason,
      0xFF,
      0xFF,
      0xFF,
      TP_CM.pdu_specific,
      TP_CM.pdu_format,
      TP_CM.data_page ]
  j1939_send bus tr TP_DT low src dst data (ARRAY_SIZE data)

def send_tp_cts (low : Nat) (bus : Nat → Int) (tr : Trace)
    (src dst num_packets next_packet : Nat) : Int × Trace :=
  let data : List Nat :=
    [ CONN_MODE_CTS,
      u8 num_packets,
      u8 next_packet,
      0xFF,
      0xFF,
      TP_CM.pdu_specific,
      TP_CM.pdu_format,
      TP_CM.data_page ]
  j1939_send bus tr TP_DT low src dst data (ARRAY_SIZE data)

def send_tp_eom_ack (low : Nat) (bus : Nat → Int) (tr : Trace)
    (src dst size num_packets : Nat) : Int × Trace :=
  let data : List Nat :=
    [ CONN_MODE_EOM_ACK,
      u8 (size &&& 0x00FF),
      u8 (size >>> 8),
      u8 num_packets,
      0xFF,
      TP_CM.pdu_specific,
      TP_CM.pdu_format,
      TP_CM.data_page ]
  j1939_send bus tr TP_CM low src dst data (ARRAY_SIZE data)

/-- State of `j1939_tp` when control leaves its `while` loop: `ret` is
`some r` when the loop body executed `return r`, and `none` when the loop
condition became false. -/
structure LoopExit where
  ret : Option Int
  num_packets : Nat
  block : Nat
  trace : Trace
deriving DecidableEq, Repr

/-- The loop `while (num_packets > 0) { ... }` of `j1939_tp`, by recursion on
the loop counter `num_packets`. -/
def tp_loop (low : Nat) (bus : Nat → Int) (src dst : Nat) (buf : List Nat) :
    Nat → Nat → Trace → LoopExit
  | 0, block, tr => { ret := none, num_packets := 0, block := block, trace := tr }
  | n + 1, block, tr =>
    let r := send_tp_dt low bus tr src dst buf block 8
    if r.1 < 0 then
      { ret := some r.1, num_packets := n + 1, block := block, trace := r.2 }
    else
      tp_loop low bus src dst buf n (block + 8) r.2

/-- The function `j1939_tp(pgn, priority, src, dst, data, len)`, started on the
trace `tr`; the result is the returned `int` and the trace at return. -/
def j1939_tp (low : Nat) (bus : Nat → Int) (tr : Trace) (pgn : j1939_pgn)
    (priority src dst : Nat) (data : List Nat) (len : Nat) : Int × Trace :=
  let num_packets := len / 8
  let odd_packet := len % 8
  let r := send_tp_rts bus tr priority src dst len (u8 num_packets)
  if r.1 < 0 then r
  else
    let l := tp_loop low bus src dst data num_packets 0 r.2
    match l.ret with
    | some e => (e, l.trace)
    | none =>
      if odd_packet ≠ 0 then
        let r2 := send_tp_dt low bus l.trace src dst data l.block odd_packet
        if r2.1 < 0 then r2
        else send_tp_eom_ack low bus r2.2 src dst 8 (u8 (l.num_packets + odd_packet))
      else
        send_tp_eom_ack low bus l.trace src dst 8 (u8 (l.num_packets + odd_packet))

/-! ## Observations on a trace -/

/-- The TP.DT frames of a trace, in emission order. -/
def dt_frames (tr : Trace) : List SendCall :=
  tr.filter (fun c => decide (c.pgn = TP_DT))

/-- A frame is an RTS: sent on TP.CM with control byte `0x10`. -/
def is_rts (c : SendCall) : Prop :=
  c.pgn = TP_CM ∧ c.data.head? = some CONN_MODE_RTS

/-- A frame is an EOM_ACK: sent on TP.CM with control byte `0x13`. -/
def is_eom_ack (c : SendCall) : Prop :=
  c.pgn = TP_CM ∧ c.data.head? = some CONN_MODE_EOM_ACK

/-- A frame is a DT frame: sent on TP.DT. -/
def is_dt (c : SendCall) : Prop :=
  c.pgn = TP_DT

instance (c : SendCall) : Decidable (is_rts c) := by unfold is_rts; infer_instance
instance (c : SendCall) : Decidable (is_eom_ack c) := by unfold is_eom_ack; infer_instance
instance (c : SendCall) : Decidable (is_dt c) := by unfold is_dt; infer_instance

/-- Every send of the run is reported as successful by the bus (no negative
result). -/
def all_ok (bus : Nat → Int) : Prop := ∀ k, 0 ≤ bus k

/-! ## Frames of a successful run -/

/-- The record of `send_tp_dt(src, dst, buf + block, len)`. -/
def dt_frame (low src dst : Nat) (buf : List Nat) (block len : Nat) : SendCall :=
  { pgn := TP_DT, priority := low, src := src, dst := dst,
    data := (buf.drop block).take len, len := len }

/-- The records of `n` consecutive full DT sends starting at offset `block`. -/
def full_frames (low src dst : Nat) (buf : List Nat) : Nat → Nat → List SendCall
  | 0, _ => []
  | n + 1, block => dt_frame low src dst buf block 8 :: full_frames low src dst buf n (block + 8)

/-- The record of the trailing short DT send, when there is one. -/
def odd_frames (low src dst : Nat) (buf : List Nat) (len : Nat) : List SendCall :=
  if len % 8 ≠ 0 then [dt_frame low src dst buf (8 * (len / 8)) (len % 8)] else []

/-- The record of the RTS send of `j1939_tp`. -/
def rts_frame (priority src dst len : Nat) : SendCall :=
  { pgn := TP_CM, priority := priority, src := src, dst := dst,
    data := [CONN_MODE_RTS, u8 (len &&& 0xFF), u8 (len >>> 8), u8 (u8 (len / 8)), 0xFF,
             TP_CM.pdu_specific, TP_CM.pdu_format, TP_CM.data_page],
    len := 8 }

/-- The record of the EOM_ACK send of `j1939_tp`. -/
def eom_frame (low src dst len : Nat) : SendCall :=
  { pgn := TP_CM, priority := low, src := src, dst := dst,
    data := [CONN_MODE_EOM_ACK, u8 (8 &&& 0x00FF), u8 (8 >>> 8), u8 (u8 (0 + len % 8)), 0xFF,
             TP_CM.pdu_specific, TP_CM.pdu_format, TP_CM.data_page],
    len := 8 }

/-! ## The wording of the specification

The definitions of this section follow the text of the specification, not the
code: they are what the code is compared with. -/

/-- Spec wording: `ceil(a / b)`. -/
def ceil_div (a b : Nat) : Nat := (a + b - 1) / b

/-- Spec wording (DT Fragmenter): the payload slice `[7*(i-1) .. min(7*i, L))`
of the 1-based segment `i`. -/
def spec_slice (payload : List Nat) (i : Nat) : List Nat :=
  (payload.drop (7 * (i - 1))).take (min (7 * i) payload.length - 7 * (i - 1))

/-- Spec wording (DT Reassembler): bytes 1-7 of each DT frame, in sequence
order, keeping the first `L` bytes. -/
def spec_reassemble (frames : List (List Nat)) (L : Nat) : List Nat :=
  ((frames.map (fun f => (f.drop 1).take 7)).flatten).take L

/-! ## Inputs used to evaluate the code -/

/-- A bus on which every send transmits a whole 8-byte frame. -/
def bus_ok : Nat → Int := fun _ => 8

/-- The payload `[0, 1, ..., n-1]`. -/
def ramp (n : Nat) : List Nat := List.range n

/-- The trace of `j1939_tp` run from an empty trace on a payload, with `len`
the length of the payload. -/
def tp_trace (low : Nat) (bus : Nat → Int) (pgn : j1939_pgn) (priority src dst : Nat)
    (payload : List Nat) : Trace :=
  (j1939_tp low bus [] pgn priority src dst payload payload.length).2

/-! ## The platform functions of `example/linux_socketcan.c`

`write` and `clock_gettime` belong to the operating system: the value `write`
yields for a frame and the reading of the clock are inputs of the model.  The
constant `CAN_EFF_FLAG` and the size of `struct can_frame` come from
`linux/can.h` and are parameters. -/

/-- The C type `struct can_frame`, with the fields set by `j1939_cansend`;
`data` holds the `can_dlc` bytes copied by `memcpy`. -/
structure can_frame where
  can_id : Nat
  can_dlc : Nat
  data : List Nat
deriving DecidableEq, Repr

/-- The `struct can_frame` that `j1939_cansend(id, data, len)` fills in before
it calls `write`. -/
def cansend_frame (CAN_EFF_FLAG : Nat) (id : Nat) (data : List Nat) (len : Nat) : can_frame :=
  { can_id := (id ||| CAN_EFF_FLAG) % 2 ^ 32, can_dlc := u8 len,
    data := data.take (u8 len) }

/-- The function `j1939_cansend(id, data, len)`.  `write frame` is the value
stored in `int ret`; the test `ret != sizeof(frame)` compares in `size_t`, so
`ret` is converted modulo `2^64` first. -/
def j1939_cansend (CAN_EFF_FLAG sizeof_frame : Nat) (write : can_frame → Int)
    (id : Nat) (data : List Nat) (len : Nat) : Int :=
  let frame := cansend_frame CAN_EFF_FLAG id data len
  let ret := write frame
  if (ret % 2 ^ 64).toNat ≠ sizeof_frame then -1
  else (frame.can_dlc : Int)

/-- The function `j1939_get_time()`, for the reading `(tv_sec, tv_nsec)` that
`clock_gettime(CLOCK_MONOTONIC, &tv)` stores; the sum is converted to
`uint32_t` on return.  Readings of the monotonic clock are not negative. -/
def j1939_get_time (tv_sec tv_nsec : Nat) : Nat :=
  (tv_sec * 1000 + tv_nsec / 1000) % 2 ^ 32

/-! ## A run with arbitrary send results -/

/-- The frames of a complete run of `j1939_tp`, in order. -/
def tp_frames (low priority src dst : Nat) (data : List Nat) (len : Nat) : List SendCall :=
  rts_frame priority src dst len ::
    (full_frames low src dst data (len / 8) 0 ++ odd_frames low src dst data len) ++
    [eom_frame low src dst len]

/-- Sending the frames of a list one after the other, each through
`j1939_send`, and returning at the first negative result; `last` is the result
of the previous send. -/
def send_seq (bus : Nat → Int) : Trace → List SendCall → Int → Int × Trace
  | tr, [], last => (last, tr)
  | tr, c :: cs, _ =>
    if bus tr.length < 0 then (bus tr.length, tr ++ [c])
    else send_seq bus (tr ++ [c]) cs (bus tr.length)

/-- What `j1939_tp` does once control has left its `while` loop. -/
def tp_after (low : Nat) (bus : Nat → Int) (src dst : Nat) (data : List Nat) (len : Nat)
    (l : LoopExit) : Int × Trace :=
  match l.ret with
  | some e => (e, l.trace)
  | none =>
    if len % 8 ≠ 0 then
      let r2 := send_tp_dt low bus l.trace src dst data l.block (len % 8)
      if r2.1 < 0 then r2
      else send_tp_eom_ack low bus r2.2 src dst 8 (u8 (l.num_packets + len % 8))
    else
      send_tp_eom_ack low bus l.trace src dst 8 (u8 (l.num_packets + len % 8))

/-- A bus on which the send number `k` reports `r` and every other send
transmits a whole 8-byte frame. -/
def bus_with (k : Nat) (r : Int) : Nat → Int := fun j => if j = k then r else 8

/-- A `write` that yields `r` whatever the frame. -/
def write_const (r : Int) : can_frame → Int := fun _ => r

/-! ## Lemmas on the loop and on a successful run -/

theorem tp_loop_ok (low : Nat) (bus : Nat → Int) (src dst : Nat) (buf : List Nat)
    (hok : all_ok bus) :
    ∀ (n block : Nat) (tr : Trace),
      tp_loop low bus src dst buf n block tr =
        { ret := none, num_packets := 0, block := block + 8 * n,
          trace := tr ++ full_frames low src dst buf n block } := by
  intro n
  induction n with
  | zero => intro block tr; simp [tp_loop, full_frames]
  | succ n ih =>
    intro block tr
    have h : ¬ bus tr.length < 0 := not_lt.mpr (hok _)
    simp only [tp_loop, send_tp_dt, j1939_send, h, if_false, ih, full_frames, dt_frame]
    simp [Nat.mul_succ, Nat.add_assoc, Nat.add_comm 8]

theorem j1939_tp_ok (low : Nat) (bus : Nat → Int) (pgn : j1939_pgn)
    (priority src dst : Nat) (data : List Nat) (len : Nat) (hok : all_ok bus) :
    (j1939_tp low bus [] pgn priority src dst data len).2 =
      rts_frame priority src dst len ::
        (full_frames low src dst data (len / 8) 0 ++ odd_frames low src dst data len) ++
        [eom_frame low src dst len] := by
  have h : ∀ k, ¬ bus k < 0 := fun k => not_lt.mpr (hok k)
  unfold j1939_tp
  simp only [send_tp_rts, send_tp_dt, send_tp_eom_ack, j1939_send, h, if_false,
    tp_loop_ok low bus src dst data hok, odd_frames, ARRAY_SIZE]
  by_cases hodd : len % 8 = 0
  · simp [hodd, rts_frame, eom_frame]
  · simp [hodd, rts_frame, eom_frame, dt_frame]

theorem all_ok_bus_ok : all_ok bus_ok := fun _ => by simp [bus_ok]

theorem and_ff (x : Nat) : x &&& 0xFF = x % 256 :=
  Nat.and_pow_two_sub_one_eq_mod x 8

theorem shr_8 (x : Nat) : x >>> 8 = x / 256 := by
  rw [Nat.shiftRight_eq_div_pow]

theorem full_frames_length (low src dst : Nat) (buf : List Nat) :
    ∀ (n block : Nat), (full_frames low src dst buf n block).length = n := by
  intro n
  induction n with
  | zero => intro block; rfl
  | succ n ih => intro block; simp [full_frames, ih]

theorem full_frames_get (low src dst : Nat) (buf : List Nat) :
    ∀ (n block i : Nat), i < n →
      (full_frames low src dst buf n block)[i]? =
        some (dt_frame low src dst buf (block + 8 * i) 8) := by
  intro n
  induction n with
  | zero => intro block i h; omega
  | succ n ih =>
    intro block i h
    cases i with
    | zero => simp [full_frames]
    | succ i =>
      simp only [full_frames, List.getElem?_cons_succ]
      rw [ih (block + 8) i (by omega)]
      congr 2
      omega

theorem full_frames_join (low src dst : Nat) (buf : List Nat) :
    ∀ (n block : Nat),
      ((full_frames low src dst buf n block).map SendCall.data).flatten =
        (buf.drop block).take (8 * n) := by
  intro n
  induction n with
  | zero => intro block; simp [full_frames]
  | succ n ih =>
    intro block
    simp only [full_frames, List.map_cons, List.flatten_cons, ih, dt_frame]
    rw [show 8 * (n + 1) = 8 + 8 * n by omega, List.take_add, List.drop_drop]

theorem full_frames_dt (low src dst : Nat) (buf : List Nat) :
    ∀ (n block : Nat), ∀ c ∈ full_frames low src dst buf n block, c.pgn = TP_DT := by
  intro n
  induction n with
  | zero => intro block c h; simp [full_frames] at h
  | succ n ih =>
    intro block c h
    simp only [full_frames, List.mem_cons] at h
    rcases h with h | h
    · rw [h]; rfl
    · exact ih _ c h

theorem odd_frames_dt (low src dst : Nat) (buf : List Nat) (len : Nat) :
    ∀ c ∈ odd_frames low src dst buf len, c.pgn = TP_DT := by
  intro c h
  unfold odd_frames at h
  split at h
  · simp only [List.mem_singleton] at h; rw [h]; rfl
  · simp at h

theorem dt_frames_ok (low : Nat) (bus : Nat → Int) (pgn : j1939_pgn)
    (priority src dst : Nat) (data : List Nat) (len : Nat) (hok : all_ok bus) :
    dt_frames (j1939_tp low bus [] pgn priority src dst data len).2 =
      full_frames low src dst data (len / 8) 0 ++ odd_frames low src dst data len := by
  rw [j1939_tp_ok low bus pgn priority src dst data len hok]
  have hcm : TP_CM ≠ TP_DT := by decide
  have hall : ∀ c ∈ full_frames low src dst data (len / 8) 0 ++ odd_frames low src dst data len,
      decide (c.pgn = TP_DT) = true := by
    intro c hc
    rw [List.mem_append] at hc
    rcases hc with hc | hc
    · simpa using full_frames_dt low src dst data _ _ c hc
    · simpa using odd_frames_dt low src dst data _ c hc
  simp only [dt_frames, List.filter_cons, List.cons_append, List.filter_append, rts_frame,
    eom_frame, hcm, decide_False, List.filter_nil, List.append_nil, Bool.false_eq_true, if_false]
  rw [← List.filter_append, List.filter_eq_self.mpr hall]

/-! ## Claims C1 to C4: the frames of a transfer -/

/-- C1 (claim as stated, refuted): for the 16-byte payload `[0, ..., 15]` byte 3
of the first frame emitted by `j1939_tp` is not `ceil(16 / 7) = 3`; the code
announces `16 / 8 = 2`, one packet per 8 payload bytes. -/
theorem c1_counterexample :
    ((tp_trace 7 bus_ok TP_CM 6 1 2 (ramp 16)).head?).bind (fun c => c.data[3]?) ≠
      some (ceil_div (ramp 16).length 7) := by
  decide

/-- C1 (amended): for every payload of length `L` in `9..=1785`, when every
send succeeds, the first frame emitted by `j1939_tp` is an RTS whose bytes 1-2
encode `L` little-endian, and whose byte 3 is `L / 8` when `L` is a multiple of
8 (one packet per 8 payload bytes, not per 7). -/
theorem c1_rts_first (low : Nat) (bus : Nat → Int) (pgn : j1939_pgn)
    (priority src dst : Nat) (payload : List Nat)
    (hL : 9 ≤ payload.length ∧ payload.length ≤ 1785) (hok : all_ok bus) :
    ∃ c rest b1 b2 b3,
      tp_trace low bus pgn priority src dst payload = c :: rest ∧ is_rts c ∧
      c.data[1]? = some b1 ∧ c.data[2]? = some b2 ∧ c.data[3]? = some b3 ∧
      b1 < 256 ∧ b2 < 256 ∧ b1 + 256 * b2 = payload.length ∧
      (payload.length % 8 = 0 → b3 = payload.length / 8) := by
  unfold tp_trace
  rw [j1939_tp_ok low bus pgn priority src dst payload payload.length hok]
  refine ⟨rts_frame priority src dst payload.length, _, u8 (payload.length &&& 0xFF),
    u8 (payload.length >>> 8), u8 (u8 (payload.length / 8)), rfl, ⟨rfl, rfl⟩, rfl, rfl, rfl,
    ?_, ?_, ?_, ?_⟩
  · exact Nat.mod_lt _ (by decide)
  · exact Nat.mod_lt _ (by decide)
  · simp only [u8, and_ff, shr_8]; omega
  · intro _; simp only [u8]; omega

/-- C1 (amended), instance: the 16-byte payload `[0, ..., 15]`. -/
theorem c1_rts_first_witness :
    (9 ≤ (ramp 16).length ∧ (ramp 16).length ≤ 1785) ∧
    ∃ c rest b1 b2 b3,
      tp_trace 7 bus_ok TP_CM 6 1 2 (ramp 16) = c :: rest ∧ is_rts c ∧
      c.data[1]? = some b1 ∧ c.data[2]? = some b2 ∧ c.data[3]? = some b3 ∧
      b1 < 256 ∧ b2 < 256 ∧ b1 + 256 * b2 = (ramp 16).length ∧
      ((ramp 16).length % 8 = 0 → b3 = (ramp 16).length / 8) :=
  ⟨by decide, c1_rts_first 7 bus_ok TP_CM 6 1 2 (ramp 16) (by decide) all_ok_bus_ok⟩

/-- C2 (claim as stated, refuted): for the 9-byte payload `[0, ..., 8]` the
first DT frame emitted by `j1939_tp` does not consist of the segment index 1
followed by the payload slice `[0 .. 7)`: it is the first 8 payload bytes, with
no index byte. -/
theorem c2_counterexample :
    ¬ ∃ c, (dt_frames (tp_trace 7 bus_ok TP_CM 6 1 2 (ramp 9)))[0]? = some c ∧
        c.data[0]? = some 1 ∧ c.data.drop 1 = spec_slice (ramp 9) 1 := by
  decide

/-- C2 (amended): for every payload of length `L` in `9..=1785` and every `i`
in `1..ceil(L/8)`, when every send succeeds, the `i`-th DT frame emitted by
`j1939_tp` is exactly the payload slice `[8*(i-1) .. min(8*i, L))`; it carries
no segment-index byte. -/
theorem c2_dt_frame_slice (low : Nat) (bus : Nat → Int) (pgn : j1939_pgn)
    (priority src dst : Nat) (payload : List Nat) (i : Nat)
    (hL : 9 ≤ payload.length ∧ payload.length ≤ 1785)
    (hi : 1 ≤ i ∧ i ≤ ceil_div payload.length 8) (hok : all_ok bus) :
    ((dt_frames (tp_trace low bus pgn priority src dst payload))[i - 1]?).map SendCall.data =
      some ((payload.drop (8 * (i - 1))).take (min (8 * i) payload.length - 8 * (i - 1))) := by
  unfold tp_trace
  rw [dt_frames_ok low bus pgn priority src dst payload payload.length hok]
  unfold ceil_div at hi
  by_cases hfull : i - 1 < payload.length / 8
  · rw [List.getElem?_append_left (by rw [full_frames_length]; exact hfull),
      full_frames_get low src dst payload _ 0 (i - 1) hfull]
    simp only [Option.map_some', dt_frame, Nat.zero_add]
    congr 2
    omega
  · have hodd : payload.length % 8 ≠ 0 := by omega
    have hidx : i - 1 = payload.length / 8 := by omega
    rw [List.getElem?_append_right (by rw [full_frames_length]; omega), full_frames_length]
    simp only [odd_frames, hodd, ne_eq, not_false_eq_true, if_true, hidx, Nat.sub_self,
      List.getElem?_cons_zero, Option.map_some', dt_frame]
    congr 2
    omega

/-- C2 (amended), instance: the second DT frame of the 9-byte payload
`[0, ..., 8]`. -/
theorem c2_dt_frame_slice_witness :
    (9 ≤ (ramp 9).length ∧ (ramp 9).length ≤ 1785) ∧
    (1 ≤ 2 ∧ 2 ≤ ceil_div (ramp 9).length 8) ∧
    ((dt_frames (tp_trace 7 bus_ok TP_CM 6 1 2 (ramp 9)))[2 - 1]?).map SendCall.data =
      some (((ramp 9).drop (8 * (2 - 1))).take (min (8 * 2) (ramp 9).length - 8 * (2 - 1))) :=
  ⟨by decide, by decide,
    c2_dt_frame_slice 7 bus_ok TP_CM 6 1 2 (ramp 9) 2 (by decide) (by decide) all_ok_bus_ok⟩

theorem full_frames_sizes (low src dst : Nat) (buf : List Nat) :
    ∀ (n block : Nat), block + 8 * n ≤ buf.length →
      (full_frames low src dst buf n block).map (fun c => (c.len, c.data.length)) =
        List.replicate n (8, 8) := by
  intro n
  induction n with
  | zero => intro block _; rfl
  | succ n ih =>
    intro block h
    simp only [full_frames, List.map_cons, List.replicate_succ]
    rw [ih (block + 8) (by omega)]
    simp only [dt_frame, List.length_take, List.length_drop]
    congr 2
    rw [Nat.min_eq_left (by omega)]

/-- C3 (claim as stated, refuted): for the 20-byte payload `[0, ..., 19]` it is
not the case that every DT frame emitted by `j1939_tp` is 8 bytes long and that
the third one carries `[18, 19, 0xFF, 0xFF, 0xFF, 0xFF, 0xFF]` after its first
byte: the third DT frame is the 4 bytes `[16, 17, 18, 19]`. -/
theorem c3_counterexample :
    ¬ ((∀ c ∈ dt_frames (tp_trace 7 bus_ok TP_CM 6 1 2 (ramp 20)), c.len = 8 ∧ c.data.length = 8) ∧
       ((dt_frames (tp_trace 7 bus_ok TP_CM 6 1 2 (ramp 20)))[2]?).map (fun c => c.data.drop 1) =
         some [18, 19, 0xFF, 0xFF, 0xFF, 0xFF, 0xFF]) := by
  decide

/-- C3 (amended): for every payload of length `L` in `9..=1785`, when every
send succeeds, the DT frames emitted by `j1939_tp` are `L / 8` frames of 8 bytes
followed, when `L` is not a multiple of 8, by one final frame of `L % 8` bytes;
every frame holds exactly as many bytes as its length says, so the final frame
is short and carries no `0xFF` padding. -/
theorem c3_dt_frame_sizes (low : Nat) (bus : Nat → Int) (pgn : j1939_pgn)
    (priority src dst : Nat) (payload : List Nat)
    (hL : 9 ≤ payload.length ∧ payload.length ≤ 1785) (hok : all_ok bus) :
    (dt_frames (tp_trace low bus pgn priority src dst payload)).map
        (fun c => (c.len, c.data.length)) =
      List.replicate (payload.length / 8) (8, 8) ++
        (if payload.length % 8 = 0 then [] else [(payload.length % 8, payload.length % 8)]) := by
  unfold tp_trace
  rw [dt_frames_ok low bus pgn priority src dst payload payload.length hok, List.map_append,
    full_frames_sizes low src dst payload _ 0 (by omega)]
  congr 1
  unfold odd_frames
  by_cases hodd : payload.length % 8 = 0
  · simp [hodd]
  · simp only [hodd, ne_eq, not_false_eq_true, if_true, if_false, List.map_cons, List.map_nil,
      dt_frame, List.length_take, List.length_drop]
    congr 2
    rw [Nat.min_eq_left (by omega)]

/-- C3 (amended), instance: the 20-byte payload `[0, ..., 19]` goes out as DT
frames of 8, 8 and 4 bytes. -/
theorem c3_dt_frame_sizes_witness :
    (9 ≤ (ramp 20).length ∧ (ramp 20).length ≤ 1785) ∧
    (dt_frames (tp_trace 7 bus_ok TP_CM 6 1 2 (ramp 20))).map
        (fun c => (c.len, c.data.length)) =
      List.replicate ((ramp 20).length / 8) (8, 8) ++
        (if (ramp 20).length % 8 = 0 then []
         else [((ramp 20).length % 8, (ramp 20).length % 8)]) :=
  ⟨by decide, c3_dt_frame_sizes 7 bus_ok TP_CM 6 1 2 (ramp 20) (by decide) all_ok_bus_ok⟩

/-- C4 (claim as stated, refuted): for the 9-byte payload `[0, ..., 8]`,
reassembling the DT frames emitted by `j1939_tp` the way the specification
does (bytes 1-7 of each frame, first 9 bytes kept) does not give the payload
back: byte 0 of every frame is payload, and is dropped. -/
theorem c4_counterexample :
    spec_reassemble
        ((dt_frames (tp_trace 7 bus_ok TP_CM 6 1 2 (ramp 9))).map SendCall.data)
        (ramp 9).length ≠ ramp 9 := by
  decide

/-- C4 (amended): round trip.  For every payload of length `L` in `9..=1785`,
when every send succeeds, concatenating the whole data of the DT frames
emitted by `j1939_tp`, in emission order, reproduces the payload exactly, and
`ceil(L/8)` DT frames are emitted. -/
theorem c4_round_trip (low : Nat) (bus : Nat → Int) (pgn : j1939_pgn)
    (priority src dst : Nat) (payload : List Nat)
    (hL : 9 ≤ payload.length ∧ payload.length ≤ 1785) (hok : all_ok bus) :
    ((dt_frames (tp_trace low bus pgn priority src dst payload)).map SendCall.data).flatten =
        payload ∧
      (dt_frames (tp_trace low bus pgn priority src dst payload)).length =
        ceil_div payload.length 8 := by
  unfold tp_trace
  rw [dt_frames_ok low bus pgn priority src dst payload payload.length hok]
  constructor
  · rw [List.map_append, List.flatten_append, full_frames_join, List.drop_zero]
    unfold odd_frames
    by_cases hodd : payload.length % 8 = 0
    · simp only [hodd, ne_eq, not_true_eq_false, if_false, List.map_nil, List.flatten_nil,
        List.append_nil]
      exact List.take_of_length_le (by omega)
    · simp only [hodd, ne_eq, not_false_eq_true, if_true, List.map_cons, List.map_nil,
        List.flatten_cons, List.flatten_nil, List.append_nil, dt_frame]
      rw [List.take_of_length_le (l := List.drop _ _) (by rw [List.length_drop]; omega)]
      exact List.take_append_drop _ _
  · rw [List.length_append, full_frames_length]
    unfold odd_frames ceil_div
    by_cases hodd : payload.length % 8 = 0
    · simp only [hodd, ne_eq, not_true_eq_false, if_false, List.length_nil]; omega
    · simp only [hodd, ne_eq, not_false_eq_true, if_true, List.length_singleton]; omega

/-- C4 (amended), instance: the 20-byte payload `[0, ..., 19]`. -/
theorem c4_round_trip_witness :
    (9 ≤ (ramp 20).length ∧ (ramp 20).length ≤ 1785) ∧
    ((dt_frames (tp_trace 7 bus_ok TP_CM 6 1 2 (ramp 20))).map SendCall.data).flatten =
        ramp 20 ∧
      (dt_frames (tp_trace 7 bus_ok TP_CM 6 1 2 (ramp 20))).length =
        ceil_div (ramp 20).length 8 :=
  ⟨by decide, c4_round_trip 7 bus_ok TP_CM 6 1 2 (ramp 20) (by decide) all_ok_bus_ok⟩

/-! ## Claims C5 to C8: the order of the frames and the control frames -/

/-- C5: for every payload and every address pair, when every send succeeds,
the frames emitted by `j1939_tp` are exactly one RTS, then DT frames only, then
one EOM_ACK, and nothing else. -/
theorem c5_frame_order (low : Nat) (bus : Nat → Int) (pgn : j1939_pgn)
    (priority src dst : Nat) (data : List Nat) (len : Nat) (hok : all_ok bus) :
    ∃ rts dts eom,
      (j1939_tp low bus [] pgn priority src dst data len).2 = rts :: dts ++ [eom] ∧
      is_rts rts ∧ (∀ d ∈ dts, is_dt d) ∧ is_eom_ack eom := by
  refine ⟨rts_frame priority src dst len,
    full_frames low src dst data (len / 8) 0 ++ odd_frames low src dst data len,
    eom_frame low src dst len, ?_, ⟨rfl, rfl⟩, ?_, ⟨rfl, rfl⟩⟩
  · rw [j1939_tp_ok low bus pgn priority src dst data len hok]
  · intro d hd
    rw [List.mem_append] at hd
    rcases hd with hd | hd
    · exact full_frames_dt low src dst data _ _ d hd
    · exact odd_frames_dt low src dst data _ d hd

/-- C5, instance: the 20-byte payload `[0, ..., 19]` from address 1 to
address 2. -/
theorem c5_frame_order_witness :
    all_ok bus_ok ∧
    ∃ rts dts eom,
      (j1939_tp 7 bus_ok [] TP_CM 6 1 2 (ramp 20) 20).2 = rts :: dts ++ [eom] ∧
      is_rts rts ∧ (∀ d ∈ dts, is_dt d) ∧ is_eom_ack eom :=
  ⟨all_ok_bus_ok, c5_frame_order 7 bus_ok TP_CM 6 1 2 (ramp 20) 20 all_ok_bus_ok⟩

/-- C6 (code evaluated at the failing input): for the 20-byte payload
`[0, ..., 19]`, with every send successful, `j1939_tp` emits 3 DT frames while
byte 3 of its RTS announces 2 packets. -/
theorem c6_dt_count_vs_rts :
    (dt_frames (tp_trace 7 bus_ok TP_CM 6 1 2 (ramp 20))).length = 3 ∧
    ((tp_trace 7 bus_ok TP_CM 6 1 2 (ramp 20)).head?).map (fun c => (c.data[0]?, c.data[3]?)) =
      some (some CONN_MODE_RTS, some 2) := by
  decide

/-- C7 (code evaluated at the failing input): for the 20-byte payload
`[0, ..., 19]`, with every send successful, the last frame emitted by
`j1939_tp` is the EOM_ACK `[0x13, 8, 0, 4, 0xFF, 0x00, 0xEC, 0x00]`: its bytes
1-2 encode 8, not 20, and its byte 3 is 4, neither the 2 announced in the RTS
nor the 3 DT frames sent. -/
theorem c7_eom_ack_bytes :
    ((tp_trace 7 bus_ok TP_CM 6 1 2 (ramp 20)).getLast?).map SendCall.data =
      some [0x13, 8, 0, 4, 0xFF, 0x00, 0xEC, 0x00] ∧
    ((tp_trace 7 bus_ok TP_CM 6 1 2 (ramp 20)).head?).map SendCall.data =
      some [0x10, 20, 0, 2, 0xFF, 0x00, 0xEC, 0x00] := by
  decide

/-- C8 (code evaluated at the failing input): for the target PGN with
`pdu_specific = 0xCA`, `pdu_format = 0xFE`, `data_page = 0`, bytes 5-7 of the
RTS and of the EOM_ACK emitted by `j1939_tp` are `[0x00, 0xEC, 0x00]`, the
fields of TP.CM itself, not `[0xCA, 0xFE, 0x00]`. -/
theorem c8_control_frames_pgn_bytes :
    ((tp_trace 7 bus_ok (J1939_INIT_PGN 0x00 0xFE 0xCA) 6 1 2 (ramp 20)).head?).map
        (fun c => c.data.drop 5) = some [0x00, 0xEC, 0x00] ∧
    ((tp_trace 7 bus_ok (J1939_INIT_PGN 0x00 0xFE 0xCA) 6 1 2 (ramp 20)).getLast?).map
        (fun c => c.data.drop 5) = some [0x00, 0xEC, 0x00] ∧
    [(J1939_INIT_PGN 0x00 0xFE 0xCA).pdu_specific, (J1939_INIT_PGN 0x00 0xFE 0xCA).pdu_format,
      (J1939_INIT_PGN 0x00 0xFE 0xCA).data_page] = [0xCA, 0xFE, 0x00] := by
  decide

/-! ## Claims C9 and C10: the control-message senders -/

/-- C9: for every 16-bit `size` and every 8-bit `num_packets`, `send_tp_rts`
and `send_tp_bam` each send one 8-byte frame whose control byte is `0x10`
resp. `0x20`, whose bytes 1-2 encode `size` little-endian, whose byte 3 is
`num_packets` and whose byte 4 is `0xFF`; the frame of `send_tp_bam` is
addressed to `ADDRESS_GLOBAL`. -/
theorem c9_rts_bam_encoding (bus : Nat → Int) (tr : Trace)
    (priority src dst size num_packets : Nat)
    (hsize : size < 65536) (hnum : num_packets < 256) :
    (∃ c b1 b2 t5 t6 t7,
      (send_tp_rts bus tr priority src dst size num_packets).2 = tr ++ [c] ∧
      c.len = 8 ∧ c.data = [0x10, b1, b2, num_packets, 0xFF, t5, t6, t7] ∧
      b1 < 256 ∧ b2 < 256 ∧ b1 + 256 * b2 = size) ∧
    (∃ c b1 b2 t5 t6 t7,
      (send_tp_bam bus tr priority src size num_packets).2 = tr ++ [c] ∧
      c.len = 8 ∧ c.data = [0x20, b1, b2, num_packets, 0xFF, t5, t6, t7] ∧
      b1 < 256 ∧ b2 < 256 ∧ b1 + 256 * b2 = size ∧ c.dst = ADDRESS_GLOBAL) := by
  have hn : u8 num_packets = num_packets := Nat.mod_eq_of_lt hnum
  have h1 : u8 (size &&& 0xFF) < 256 := Nat.mod_lt _ (by decide)
  have h2 : u8 (size >>> 8) < 256 := Nat.mod_lt _ (by decide)
  have hle : u8 (size &&& 0xFF) + 256 * u8 (size >>> 8) = size := by
    simp only [u8, and_ff, shr_8]; omega
  constructor
  · refine ⟨_, u8 (size &&& 0xFF), u8 (size >>> 8), TP_CM.pdu_specific, TP_CM.pdu_format,
      TP_CM.data_page, rfl, rfl, ?_, h1, h2, hle⟩
    simp only [List.take, hn, CONN_MODE_RTS]
  · refine ⟨_, u8 (size &&& 0xFF), u8 (size >>> 8), TP_CM.pdu_specific, TP_CM.pdu_format,
      TP_CM.data_page, rfl, rfl, ?_, h1, h2, hle, rfl⟩
    simp only [ARRAY_SIZE, List.length_cons, List.length_nil, List.take, hn, CONN_MODE_BAM]

/-- C9, instance: `size = 1785 = 0x06F9` and `num_packets = 255`. -/
theorem c9_rts_bam_encoding_witness :
    (1785 < 65536 ∧ 255 < 256) ∧
    (∃ c b1 b2 t5 t6 t7,
      (send_tp_rts bus_ok [] 6 1 2 1785 255).2 = [] ++ [c] ∧
      c.len = 8 ∧ c.data = [0x10, b1, b2, 255, 0xFF, t5, t6, t7] ∧
      b1 < 256 ∧ b2 < 256 ∧ b1 + 256 * b2 = 1785) ∧
    (∃ c b1 b2 t5 t6 t7,
      (send_tp_bam bus_ok [] 6 1 1785 255).2 = [] ++ [c] ∧
      c.len = 8 ∧ c.data = [0x20, b1, b2, 255, 0xFF, t5, t6, t7] ∧
      b1 < 256 ∧ b2 < 256 ∧ b1 + 256 * b2 = 1785 ∧ c.dst = ADDRESS_GLOBAL) :=
  ⟨by decide, c9_rts_bam_encoding bus_ok [] 6 1 2 1785 255 (by decide) (by decide)⟩

/-- C10 (code evaluated at the failing input): `send_abort(1, 2, 3)` and
`send_tp_cts(1, 2, 3, 1)` hand their frame to `j1939_send` with the TP.DT
parameter group (`pdu_format = 0xEB`), whereas `send_tp_rts`, `send_tp_bam` and
`send_tp_eom_ack` use TP.CM (`pdu_format = 0xEC`). -/
theorem c10_abort_cts_on_tp_dt :
    (send_abort 7 bus_ok [] 1 2 3).2.map (fun c => c.pgn.pdu_format) = [0xEB] ∧
    (send_tp_cts 7 bus_ok [] 1 2 3 1).2.map (fun c => c.pgn.pdu_format) = [0xEB] ∧
    (send_tp_rts bus_ok [] 6 1 2 20 2).2.map (fun c => c.pgn.pdu_format) = [0xEC] ∧
    (send_tp_bam bus_ok [] 6 1 20 2).2.map (fun c => c.pgn.pdu_format) = [0xEC] ∧
    (send_tp_eom_ack 7 bus_ok [] 1 2 20 2).2.map (fun c => c.pgn.pdu_format) = [0xEC] ∧
    (send_abort 7 bus_ok [] 1 2 3).2.map SendCall.pgn = [TP_DT] ∧
    (send_tp_cts 7 bus_ok [] 1 2 3 1).2.map SendCall.pgn = [TP_DT] := by
  decide

/-! ## Lemmas on a run with arbitrary send results -/

theorem tp_loop_seq (low : Nat) (bus : Nat → Int) (src dst : Nat) (buf : List Nat)
    (len : Nat) (tail : List SendCall) :
    ∀ (n block : Nat) (tr : Trace) (d : Int),
      (∀ (tr1 : Trace) (d1 : Int),
        tp_after low bus src dst buf len
            { ret := none, num_packets := 0, block := block + 8 * n, trace := tr1 } =
          send_seq bus tr1 tail d1) →
      tp_after low bus src dst buf len (tp_loop low bus src dst buf n block tr) =
        send_seq bus tr (full_frames low src dst buf n block ++ tail) d := by
  intro n
  induction n with
  | zero =>
    intro block tr d h
    simpa [tp_loop, full_frames] using h tr d
  | succ n ih =>
    intro block tr d h
    simp only [tp_loop, send_tp_dt, j1939_send, full_frames, List.cons_append, send_seq]
    by_cases hneg : bus tr.length < 0
    · simp only [hneg, if_true, tp_after, dt_frame]
    · simp only [hneg, if_false]
      rw [ih (block + 8) _ (bus tr.length)]
      · rfl
      · intro tr1 d1
        rw [← h tr1 d1]
        congr 2
        omega

theorem tp_after_seq (low : Nat) (bus : Nat → Int) (src dst : Nat) (buf : List Nat)
    (len : Nat) (tr1 : Trace) (d1 : Int) :
    tp_after low bus src dst buf len
        { ret := none, num_packets := 0, block := 0 + 8 * (len / 8), trace := tr1 } =
      send_seq bus tr1 (odd_frames low src dst buf len ++ [eom_frame low src dst len]) d1 := by
  unfold tp_after odd_frames
  by_cases hodd : len % 8 = 0
  · by_cases hneg : bus tr1.length < 0 <;>
      simp [hodd, hneg, send_seq, send_tp_eom_ack, j1939_send, eom_frame, ARRAY_SIZE]
  · by_cases hneg : bus tr1.length < 0
    · simp [hodd, hneg, send_seq, send_tp_dt, j1939_send, dt_frame]
    · by_cases hneg2 : bus (tr1.length + 1) < 0 <;>
        simp [hodd, hneg, hneg2, send_seq, send_tp_dt, send_tp_eom_ack, j1939_send, dt_frame,
          eom_frame, ARRAY_SIZE]

theorem j1939_tp_seq (low : Nat) (bus : Nat → Int) (tr : Trace) (pgn : j1939_pgn)
    (priority src dst : Nat) (data : List Nat) (len : Nat) (d : Int) :
    j1939_tp low bus tr pgn priority src dst data len =
      send_seq bus tr (tp_frames low priority src dst data len) d := by
  have hafter : ∀ l, (match l.ret with
      | some e => (e, l.trace)
      | none =>
        if len % 8 ≠ 0 then
          let r2 := send_tp_dt low bus l.trace src dst data l.block (len % 8)
          if r2.1 < 0 then r2
          else send_tp_eom_ack low bus r2.2 src dst 8 (u8 (l.num_packets + len % 8))
        else
          send_tp_eom_ack low bus l.trace src dst 8 (u8 (l.num_packets + len % 8))) =
      tp_after low bus src dst data len l := fun l => rfl
  unfold j1939_tp
  simp only [hafter, tp_frames, List.cons_append, send_seq, send_tp_rts, j1939_send]
  by_cases hneg : bus tr.length < 0
  · simp [hneg, rts_frame]
  · simp only [hneg, if_false]
    rw [tp_loop_seq low bus src dst data len
      (odd_frames low src dst data len ++ [eom_frame low src dst len]) (len / 8) 0 _
      (bus tr.length) (fun tr1 d1 => tp_after_seq low bus src dst data len tr1 d1)]
    simp [rts_frame, List.append_assoc]

theorem send_seq_ok (bus : Nat → Int) (hok : all_ok bus) :
    ∀ (frames : List SendCall) (tr : Trace) (d : Int),
      send_seq bus tr frames d =
        (if frames = [] then d else bus (tr.length + frames.length - 1), tr ++ frames) := by
  intro frames
  induction frames with
  | nil => intro tr d; simp [send_seq]
  | cons c cs ih =>
    intro tr d
    have h : ¬ bus tr.length < 0 := not_lt.mpr (hok _)
    simp only [send_seq, h, if_false, ih, List.length_append, List.length_singleton,
      List.length_cons, List.append_assoc, List.singleton_append, reduceCtorEq]
    by_cases hcs : cs = []
    · simp [hcs]
    · have hpos : 0 < cs.length := List.length_pos.mpr hcs
      have hidx : tr.length + (([] : List SendCall).length + 1) + cs.length - 1 =
          tr.length + (cs.length + 1) - 1 := by simp only [List.length_nil]; omega
      simp only [hcs, if_false, hidx]

theorem send_seq_fail (bus : Nat → Int) :
    ∀ (frames : List SendCall) (tr : Trace) (d : Int) (k : Nat),
      k < frames.length → (∀ j, j < k → 0 ≤ bus (tr.length + j)) → bus (tr.length + k) < 0 →
      send_seq bus tr frames d = (bus (tr.length + k), tr ++ frames.take (k + 1)) := by
  intro frames
  induction frames with
  | nil => intro tr d k hk; simp at hk
  | cons c cs ih =>
    intro tr d k hk hprev hfail
    cases k with
    | zero =>
      have h0 : bus tr.length < 0 := by simpa using hfail
      simp [send_seq, h0]
    | succ k =>
      have h0 : ¬ bus tr.length < 0 := not_lt.mpr (by simpa using hprev 0 (by omega))
      simp only [send_seq, h0, if_false]
      rw [ih (tr ++ [c]) (bus tr.length) k (by simpa using hk)
        (by
          intro j hj
          have := hprev (j + 1) (by omega)
          simpa [Nat.add_assoc, Nat.add_comm 1] using this)
        (by simpa [Nat.add_assoc, Nat.add_comm 1] using hfail)]
      simp [Nat.add_assoc, Nat.add_comm 1]

theorem send_seq_take (bus : Nat → Int) :
    ∀ (frames : List SendCall) (tr : Trace) (d : Int), frames ≠ [] →
      ∃ m, 1 ≤ m ∧ (send_seq bus tr frames d).2 = tr ++ frames.take m := by
  intro frames
  induction frames with
  | nil => intro tr d h; exact absurd rfl h
  | cons c cs ih =>
    intro tr d _
    by_cases hneg : bus tr.length < 0
    · exact ⟨1, le_refl 1, by simp [send_seq, hneg]⟩
    · by_cases hcs : cs = []
      · exact ⟨1, le_refl 1, by simp [send_seq, hneg, hcs]⟩
      · obtain ⟨m, _, hm⟩ := ih (tr ++ [c]) (bus tr.length) hcs
        exact ⟨m + 1, by omega, by simp [send_seq, hneg, hm]⟩

theorem all_ok_bus_with (k : Nat) (r : Int) (hr : 0 ≤ r) : all_ok (bus_with k r) := by
  intro j
  unfold bus_with
  split
  · exact hr
  · decide

theorem tp_trace_bus_ok (low : Nat) (pgn : j1939_pgn) (priority src dst : Nat)
    (data : List Nat) (len : Nat) :
    (j1939_tp low bus_ok [] pgn priority src dst data len).2 =
      tp_frames low priority src dst data len :=
  j1939_tp_ok low bus_ok pgn priority src dst data len all_ok_bus_ok

theorem tp_frames_last (low priority src dst : Nat) (data : List Nat) (len : Nat) :
    (tp_frames low priority src dst data len)[(tp_frames low priority src dst data len).length - 1]? =
      some (eom_frame low src dst len) := by
  unfold tp_frames
  have hlen : (rts_frame priority src dst len ::
        (full_frames low src dst data (len / 8) 0 ++ odd_frames low src dst data len) ++
        [eom_frame low src dst len]).length - 1 =
      (rts_frame priority src dst len ::
        (full_frames low src dst data (len / 8) 0 ++ odd_frames low src dst data len)).length := by
    simp only [List.length_append, List.length_cons, List.length_nil]
    omega
  rw [hlen, List.getElem?_append_right (le_refl _), Nat.sub_self]
  rfl

/-! ## Claims C11 to C13: control payloads and send failures -/

/-- C11: for all 8-bit arguments, `send_tp_cts` sends the 8-byte payload
`[0x11, num_packets, next_packet, 0xFF, 0xFF, ...]` and `send_abort` the
8-byte payload `[0xFF, reason, 0xFF, 0xFF, 0xFF, ...]`. -/
theorem c11_cts_abort_payload (low : Nat) (bus : Nat → Int) (tr : Trace)
    (src dst num_packets next_packet reason : Nat)
    (hnum : num_packets < 256) (hnext : next_packet < 256) (hreason : reason < 256) :
    (∃ c t5 t6 t7,
      (send_tp_cts low bus tr src dst num_packets next_packet).2 = tr ++ [c] ∧
      c.len = 8 ∧ c.data = [0x11, num_packets, next_packet, 0xFF, 0xFF, t5, t6, t7]) ∧
    (∃ c t5 t6 t7,
      (send_abort low bus tr src dst reason).2 = tr ++ [c] ∧
      c.len = 8 ∧ c.data = [0xFF, reason, 0xFF, 0xFF, 0xFF, t5, t6, t7]) := by
  have h1 : u8 num_packets = num_packets := Nat.mod_eq_of_lt hnum
  have h2 : u8 next_packet = next_packet := Nat.mod_eq_of_lt hnext
  have h3 : u8 reason = reason := Nat.mod_eq_of_lt hreason
  constructor
  · refine ⟨_, TP_CM.pdu_specific, TP_CM.pdu_format, TP_CM.data_page, rfl, rfl, ?_⟩
    simp only [ARRAY_SIZE, List.length_cons, List.length_nil, List.take, h1, h2, CONN_MODE_CTS]
  · refine ⟨_, TP_CM.pdu_specific, TP_CM.pdu_format, TP_CM.data_page, rfl, rfl, ?_⟩
    simp only [ARRAY_SIZE, List.length_cons, List.length_nil, List.take, h3, CONN_MODE_ABORT]

/-- C11, instance: `send_tp_cts(1, 2, 3, 4)` and `send_abort(1, 2, 5)`. -/
theorem c11_cts_abort_payload_witness :
    (3 < 256 ∧ 4 < 256 ∧ 5 < 256) ∧
    (∃ c t5 t6 t7,
      (send_tp_cts 7 bus_ok [] 1 2 3 4).2 = [] ++ [c] ∧
      c.len = 8 ∧ c.data = [0x11, 3, 4, 0xFF, 0xFF, t5, t6, t7]) ∧
    (∃ c t5 t6 t7,
      (send_abort 7 bus_ok [] 1 2 5).2 = [] ++ [c] ∧
      c.len = 8 ∧ c.data = [0xFF, 5, 0xFF, 0xFF, 0xFF, t5, t6, t7]) :=
  ⟨by decide,
    c11_cts_abort_payload 7 bus_ok [] 1 2 3 4 5 (by decide) (by decide) (by decide)⟩

/-- C12: for every payload and every position `k` in the frame sequence (the
frames of the run in which every send succeeds), if the `k`-th send is the
first to report a negative result, `j1939_tp` returns exactly that result and
its trace is the first `k + 1` frames of the sequence: nothing is emitted after
the failed frame and the failed frame is sent once. -/
theorem c12_first_failure (low : Nat) (bus : Nat → Int) (pgn : j1939_pgn)
    (priority src dst : Nat) (data : List Nat) (len k : Nat)
    (hk : k < (j1939_tp low bus_ok [] pgn priority src dst data len).2.length)
    (hprev : ∀ j, j < k → 0 ≤ bus j) (hfail : bus k < 0) :
    j1939_tp low bus [] pgn priority src dst data len =
        (bus k, ((j1939_tp low bus_ok [] pgn priority src dst data len).2).take (k + 1)) ∧
      (j1939_tp low bus [] pgn priority src dst data len).2.length = k + 1 := by
  rw [tp_trace_bus_ok] at hk ⊢
  have hrun : j1939_tp low bus [] pgn priority src dst data len =
      (bus k, (tp_frames low priority src dst data len).take (k + 1)) := by
    rw [j1939_tp_seq low bus [] pgn priority src dst data len 0,
      send_seq_fail bus _ [] 0 k hk (by simpa using hprev) (by simpa using hfail)]
    simp
  refine ⟨hrun, ?_⟩
  rw [hrun, List.length_take]
  exact Nat.min_eq_left hk

/-- C12, instance: the 20-byte payload `[0, ..., 19]` on a bus whose third
send (the second DT frame) reports `-5`. -/
theorem c12_first_failure_witness :
    (2 < (j1939_tp 7 bus_ok [] TP_CM 6 1 2 (ramp 20) 20).2.length ∧
      (∀ j, j < 2 → 0 ≤ bus_with 2 (-5) j) ∧ bus_with 2 (-5) 2 < 0) ∧
    (j1939_tp 7 (bus_with 2 (-5)) [] TP_CM 6 1 2 (ramp 20) 20 =
        (bus_with 2 (-5) 2, ((j1939_tp 7 bus_ok [] TP_CM 6 1 2 (ramp 20) 20).2).take (2 + 1)) ∧
      (j1939_tp 7 (bus_with 2 (-5)) [] TP_CM 6 1 2 (ramp 20) 20).2.length = 2 + 1) :=
  ⟨by decide,
    c12_first_failure 7 (bus_with 2 (-5)) TP_CM 6 1 2 (ramp 20) 20 2 (by decide) (by decide)
      (by decide)⟩

/-- C13 (claim as stated, refuted): for the 20-byte payload `[0, ..., 19]` on a
bus whose first DT send reports 3 bytes, `j1939_tp` does not stop after that
frame with an error: it emits all 5 frames and returns 8. -/
theorem c13_counterexample :
    ¬ ((j1939_tp 7 (bus_with 1 3) [] TP_CM 6 1 2 (ramp 20) 20).1 < 0 ∧
       (j1939_tp 7 (bus_with 1 3) [] TP_CM 6 1 2 (ramp 20) 20).2.length = 2) := by
  decide

/-- C13 (amended): for every payload, if the send of the DT frame at position
`k` reports a non-negative result other than 8 and no send reports a negative
result, `j1939_tp` does not treat it as an error: it emits the same complete
frame sequence as when every send reports 8, frames after the `k`-th included,
and returns a non-negative value. -/
theorem c13_short_result_not_fatal (low : Nat) (bus : Nat → Int) (pgn : j1939_pgn)
    (priority src dst : Nat) (data : List Nat) (len k : Nat)
    (hdt : ∃ c, (j1939_tp low bus_ok [] pgn priority src dst data len).2[k]? = some c ∧ is_dt c)
    (hshort : bus k ≠ 8) (hok : all_ok bus) :
    (j1939_tp low bus [] pgn priority src dst data len).2 =
        (j1939_tp low bus_ok [] pgn priority src dst data len).2 ∧
      k + 1 < (j1939_tp low bus [] pgn priority src dst data len).2.length ∧
      0 ≤ (j1939_tp low bus [] pgn priority src dst data len).1 := by
  rw [tp_trace_bus_ok] at hdt ⊢
  have hrun := j1939_tp_seq low bus [] pgn priority src dst data len 0
  rw [send_seq_ok bus hok] at hrun
  have htr : (j1939_tp low bus [] pgn priority src dst data len).2 =
      tp_frames low priority src dst data len := by rw [hrun]; simp
  refine ⟨htr, ?_, ?_⟩
  · rw [htr]
    obtain ⟨c, hc, hcdt⟩ := hdt
    have hlt : k < (tp_frames low priority src dst data len).length := by
      by_contra hge
      rw [List.getElem?_eq_none (by omega)] at hc
      exact Option.noConfusion hc
    by_contra hnot
    have hk : k = (tp_frames low priority src dst data len).length - 1 := by omega
    rw [hk, tp_frames_last] at hc
    have hc2 : eom_frame low src dst len = c := Option.some.inj hc
    rw [← hc2] at hcdt
    have hne : TP_CM ≠ TP_DT := by decide
    exact hne hcdt
  · rw [hrun]
    simp only
    split
    · exact le_refl 0
    · exact hok _

/-- C13 (amended), instance: the 20-byte payload `[0, ..., 19]` on a bus whose
first DT send reports 3 bytes. -/
theorem c13_short_result_not_fatal_witness :
    ((∃ c, (j1939_tp 7 bus_ok [] TP_CM 6 1 2 (ramp 20) 20).2[1]? = some c ∧ is_dt c) ∧
      bus_with 1 3 1 ≠ 8 ∧ all_ok (bus_with 1 3)) ∧
    ((j1939_tp 7 (bus_with 1 3) [] TP_CM 6 1 2 (ramp 20) 20).2 =
        (j1939_tp 7 bus_ok [] TP_CM 6 1 2 (ramp 20) 20).2 ∧
      1 + 1 < (j1939_tp 7 (bus_with 1 3) [] TP_CM 6 1 2 (ramp 20) 20).2.length ∧
      0 ≤ (j1939_tp 7 (bus_with 1 3) [] TP_CM 6 1 2 (ramp 20) 20).1) :=
  ⟨⟨by decide, by decide, all_ok_bus_with 1 3 (by decide)⟩,
    c13_short_result_not_fatal 7 (bus_with 1 3) TP_CM 6 1 2 (ramp 20) 20 1 (by decide)
      (by decide) (all_ok_bus_with 1 3 (by decide))⟩

/-! ## Claims C14 to C16: the platform functions -/

/-- C14: for every identifier, payload and `len <= 8`, with `ret` the `int`
that `write` yields for the frame, `j1939_cansend` returns `-1` if and only if
`ret` differs from the size of the frame (a partial write or a negative result
alike), and returns `len` otherwise. -/
theorem c14_cansend_result (CAN_EFF_FLAG sizeof_frame : Nat) (write : can_frame → Int)
    (id : Nat) (data : List Nat) (len : Nat)
    (hlen : len ≤ 8) (hsize : sizeof_frame < 2 ^ 31)
    (hint : ∀ f, -(2 ^ 31) ≤ write f ∧ write f < 2 ^ 31) :
    (j1939_cansend CAN_EFF_FLAG sizeof_frame write id data len = -1 ↔
        write (cansend_frame CAN_EFF_FLAG id data len) ≠ (sizeof_frame : Int)) ∧
      (write (cansend_frame CAN_EFF_FLAG id data len) = (sizeof_frame : Int) →
        j1939_cansend CAN_EFF_FLAG sizeof_frame write id data len = (len : Int)) := by
  have hw := hint (cansend_frame CAN_EFF_FLAG id data len)
  have hdlc : (cansend_frame CAN_EFF_FLAG id data len).can_dlc = len := by
    simp only [cansend_frame, u8]; omega
  have hiff : (write (cansend_frame CAN_EFF_FLAG id data len) % 2 ^ 64).toNat = sizeof_frame ↔
      write (cansend_frame CAN_EFF_FLAG id data len) = (sizeof_frame : Int) := by
    norm_num at hw hsize ⊢
    omega
  unfold j1939_cansend
  constructor
  · constructor
    · intro h hEq
      rw [if_neg (not_not.mpr (hiff.mpr hEq)), hdlc] at h
      omega
    · intro hne
      rw [if_pos (fun h => hne (hiff.mp h))]
  · intro hEq
    rw [if_neg (not_not.mpr (hiff.mpr hEq)), hdlc]

/-- C14, instance: a whole frame of 16 bytes written for `len = 8`. -/
theorem c14_cansend_result_witness :
    (8 ≤ 8 ∧ 16 < 2 ^ 31 ∧
      ∀ f, -(2 ^ 31) ≤ write_const 16 f ∧ write_const 16 f < 2 ^ 31) ∧
    ((j1939_cansend 0x80000000 16 (write_const 16) 0x18EC0201 (ramp 8) 8 = -1 ↔
        write_const 16 (cansend_frame 0x80000000 0x18EC0201 (ramp 8) 8) ≠ ((16 : Nat) : Int)) ∧
      (write_const 16 (cansend_frame 0x80000000 0x18EC0201 (ramp 8) 8) = ((16 : Nat) : Int) →
        j1939_cansend 0x80000000 16 (write_const 16) 0x18EC0201 (ramp 8) 8 = ((8 : Nat) : Int))) :=
  ⟨⟨by decide, by decide, fun _ => by simp [write_const]⟩,
    c14_cansend_result 0x80000000 16 (write_const 16) 0x18EC0201 (ramp 8) 8 (by decide)
      (by decide) (fun _ => by simp [write_const])⟩

/-- C15 (code evaluated at the failing input): for the clock reading
`(1 s, 500_000_000 ns)`, `j1939_get_time` returns `501_000`, whereas the
reading in milliseconds is `1_500`: the nanoseconds are divided by `1000`. -/
theorem c15_get_time_value :
    j1939_get_time 1 500000000 = 501000 ∧
    (1 * 1000 + 500000000 / 1000000) % 2 ^ 32 = 1500 := by
  decide

/-- C16 (code evaluated at the failing input): the clock readings
`(0 s, 999_999_999 ns)` and `(1 s, 0 ns)` are in increasing order and far from
the 32-bit wrap, yet `j1939_get_time` gives `999_999` for the first and `1_000`
for the second. -/
theorem c16_get_time_order :
    j1939_get_time 0 999999999 = 999999 ∧ j1939_get_time 1 0 = 1000 ∧
    ¬ (j1939_get_time 0 999999999 ≤ j1939_get_time 1 0) := by
  decide

theorem full_frames_eq_map (low src dst : Nat) (buf : List Nat) (n block : Nat) :
    full_frames low src dst buf n block =
      (List.range n).map (fun i => dt_frame low src dst buf (block + 8 * i) 8) := by
  apply List.ext_getElem?
  intro i
  by_cases hi : i < n
  · rw [full_frames_get low src dst buf n block i hi, List.getElem?_map,
      List.getElem?_range hi]
    rfl
  · rw [List.getElem?_eq_none (by rw [full_frames_length]; omega),
      List.getElem?_eq_none (by rw [List.length_map, List.length_range]; omega)]

theorem full_frames_mem (low src dst : Nat) (buf : List Nat) (n block : Nat) :
    ∀ c ∈ full_frames low src dst buf n block, ∃ b, c = dt_frame low src dst buf b 8 := by
  intro c hc
  rw [full_frames_eq_map, List.mem_map] at hc
  obtain ⟨i, _, hi⟩ := hc
  exact ⟨block + 8 * i, hi.symm⟩

theorem dt_list_eq_map (low src dst : Nat) (buf : List Nat) (len : Nat) :
    full_frames low src dst buf (len / 8) 0 ++ odd_frames low src dst buf len =
      (List.range (ceil_div len 8)).map
        (fun i => dt_frame low src dst buf (8 * i) (min 8 (len - 8 * i))) := by
  have hfull : (List.range (len / 8)).map (fun i => dt_frame low src dst buf (0 + 8 * i) 8) =
      (List.range (len / 8)).map
        (fun i => dt_frame low src dst buf (8 * i) (min 8 (len - 8 * i))) := by
    apply List.map_congr_left
    intro i hi
    rw [List.mem_range] at hi
    rw [Nat.zero_add, Nat.min_eq_left (by omega)]
  rw [full_frames_eq_map, hfull]
  unfold odd_frames ceil_div
  by_cases hodd : len % 8 = 0
  · have hc : (len + 8 - 1) / 8 = len / 8 := by omega
    simp only [hodd, ne_eq, not_true_eq_false, if_false, List.append_nil, hc]
  · have hc : (len + 8 - 1) / 8 = len / 8 + 1 := by omega
    have hm : min 8 (len - 8 * (len / 8)) = len % 8 := by omega
    simp only [hodd, ne_eq, not_false_eq_true, if_true, hc, List.range_succ, List.map_append,
      List.map_cons, List.map_nil, hm]

theorem dt_list_flatten (low src dst : Nat) (buf : List Nat) :
    ((full_frames low src dst buf (buf.length / 8) 0 ++
        odd_frames low src dst buf buf.length).map SendCall.data).flatten = buf := by
  rw [List.map_append, List.flatten_append, full_frames_join, List.drop_zero]
  unfold odd_frames
  by_cases hodd : buf.length % 8 = 0
  · simp only [hodd, ne_eq, not_true_eq_false, if_false, List.map_nil, List.flatten_nil,
      List.append_nil]
    exact List.take_of_length_le (by omega)
  · simp only [hodd, ne_eq, not_false_eq_true, if_true, List.map_cons, List.map_nil,
      List.flatten_cons, List.flatten_nil, List.append_nil, dt_frame]
    rw [List.take_of_length_le (l := List.drop _ _) (by rw [List.length_drop]; omega)]
    exact List.take_append_drop _ _

/-! ## Claims C17 and C18: byte ranges and addressing -/

/-- C17: for every payload buffer of exactly `len` bytes (`len` any 16-bit
value), when every send succeeds `j1939_tp` returns having emitted exactly
`ceil(len/8)` DT frames; the `i`-th one (from 0) is handed the bytes
`[8*i, 8*i + n)` of the buffer with `n = min 8 (len - 8*i)`, which is 8 except
for a final frame of `len % 8` bytes when that is not zero, and never reaches
past `len`; every frame holds all the bytes handed to it, and the data of the
frames, concatenated in emission order, is the payload. -/
theorem c17_dt_ranges (low : Nat) (bus : Nat → Int) (pgn : j1939_pgn)
    (priority src dst : Nat) (payload : List Nat) (len : Nat)
    (hlen : payload.length = len) (h16 : len < 65536) (hok : all_ok bus) :
    (dt_frames (j1939_tp low bus [] pgn priority src dst payload len).2).length =
        ceil_div len 8 ∧
      dt_frames (j1939_tp low bus [] pgn priority src dst payload len).2 =
        (List.range (ceil_div len 8)).map
          (fun i => dt_frame low src dst payload (8 * i) (min 8 (len - 8 * i))) ∧
      (∀ i, i < ceil_div len 8 →
        8 * i + min 8 (len - 8 * i) ≤ len ∧
        (i + 1 < ceil_div len 8 → min 8 (len - 8 * i) = 8) ∧
        (i + 1 = ceil_div len 8 →
          min 8 (len - 8 * i) = if len % 8 = 0 then 8 else len % 8)) ∧
      (∀ c ∈ dt_frames (j1939_tp low bus [] pgn priority src dst payload len).2,
        c.data.length = c.len) ∧
      ((dt_frames (j1939_tp low bus [] pgn priority src dst payload len).2).map
        SendCall.data).flatten = payload := by
  have hdts := dt_frames_ok low bus pgn priority src dst payload len hok
  refine ⟨?_, ?_, ?_, ?_, ?_⟩
  · rw [hdts, dt_list_eq_map, List.length_map, List.length_range]
  · rw [hdts, dt_list_eq_map]
  · intro i hi
    unfold ceil_div at hi ⊢
    refine ⟨by omega, fun h => by omega, fun h => ?_⟩
    split <;> omega
  · intro c hc
    rw [hdts, dt_list_eq_map, List.mem_map] at hc
    obtain ⟨i, hi, hci⟩ := hc
    rw [List.mem_range] at hi
    unfold ceil_div at hi
    rw [← hci]
    simp only [dt_frame, List.length_take, List.length_drop, hlen]
    omega
  · rw [hdts, ← hlen]
    exact dt_list_flatten low src dst payload

/-- C17, instance: the 20-byte payload `[0, ..., 19]`. -/
theorem c17_dt_ranges_witness :
    ((ramp 20).length = 20 ∧ 20 < 65536 ∧ all_ok bus_ok) ∧
    ((dt_frames (j1939_tp 7 bus_ok [] TP_CM 6 1 2 (ramp 20) 20).2).length = ceil_div 20 8 ∧
      dt_frames (j1939_tp 7 bus_ok [] TP_CM 6 1 2 (ramp 20) 20).2 =
        (List.range (ceil_div 20 8)).map
          (fun i => dt_frame 7 1 2 (ramp 20) (8 * i) (min 8 (20 - 8 * i))) ∧
      (∀ i, i < ceil_div 20 8 →
        8 * i + min 8 (20 - 8 * i) ≤ 20 ∧
        (i + 1 < ceil_div 20 8 → min 8 (20 - 8 * i) = 8) ∧
        (i + 1 = ceil_div 20 8 →
          min 8 (20 - 8 * i) = if 20 % 8 = 0 then 8 else 20 % 8)) ∧
      (∀ c ∈ dt_frames (j1939_tp 7 bus_ok [] TP_CM 6 1 2 (ramp 20) 20).2,
        c.data.length = c.len) ∧
      ((dt_frames (j1939_tp 7 bus_ok [] TP_CM 6 1 2 (ramp 20) 20).2).map
        SendCall.data).flatten = ramp 20) :=
  ⟨⟨by decide, by decide, all_ok_bus_ok⟩,
    c17_dt_ranges 7 bus_ok TP_CM 6 1 2 (ramp 20) 20 (by decide) (by decide) all_ok_bus_ok⟩

/-- C18: for every priority, `src` and `dst` passed to `j1939_tp`, and whatever
the sends report, the first frame emitted is an RTS on TP.CM with the priority
of the caller, and every later frame is either a DT frame on TP.DT or the
EOM_ACK on TP.CM, sent with `J1939_PRIORITY_LOW`; all frames carry the `src`
and `dst` of the caller. -/
theorem c18_addressing (low : Nat) (bus : Nat → Int) (pgn : j1939_pgn)
    (priority src dst : Nat) (data : List Nat) (len : Nat) :
    ∃ rts rest,
      (j1939_tp low bus [] pgn priority src dst data len).2 = rts :: rest ∧
      is_rts rts ∧ rts.priority = priority ∧ rts.src = src ∧ rts.dst = dst ∧
      ∀ c ∈ rest, c.src = src ∧ c.dst = dst ∧ c.priority = low ∧ (is_dt c ∨ is_eom_ack c) := by
  obtain ⟨m, hm1, hm⟩ := send_seq_take bus (tp_frames low priority src dst data len) [] 0
    (by simp [tp_frames])
  rw [← j1939_tp_seq low bus [] pgn priority src dst data len 0] at hm
  obtain ⟨m, rfl⟩ : ∃ m1, m = m1 + 1 := ⟨m - 1, by omega⟩
  refine ⟨rts_frame priority src dst len,
    ((full_frames low src dst data (len / 8) 0 ++ odd_frames low src dst data len) ++
      [eom_frame low src dst len]).take m, ?_, ⟨rfl, rfl⟩, rfl, rfl, rfl, ?_⟩
  · rw [hm]; simp [tp_frames]
  · intro c hc
    have hc2 := List.mem_of_mem_take hc
    simp only [List.mem_append, List.mem_singleton] at hc2
    rcases hc2 with (hfull | hodd) | heom
    · obtain ⟨b, hb⟩ := full_frames_mem low src dst data _ _ c hfull
      rw [hb]
      exact ⟨rfl, rfl, rfl, Or.inl rfl⟩
    · unfold odd_frames at hodd
      split at hodd
      · rw [List.mem_singleton] at hodd
        rw [hodd]
        exact ⟨rfl, rfl, rfl, Or.inl rfl⟩
      · simp at hodd
    · rw [heom]
      exact ⟨rfl, rfl, rfl, Or.inr ⟨rfl, rfl⟩⟩

end J1939
